import Mathlib

/-
Verification of the in-memory transactional storage engine (src/inmem/mod.rs,
src/txn_storage_trait.rs).

Modelling notes:
- Keys and values are byte vectors (Vec of u8); modelled as List Nat.
- Rust HashMap and BTreeMap are both modelled by the same functional map:
  an association list kept sorted by strictly ascending byte-lexicographic
  key order.  This is faithful to each map ADT's key-value semantics
  (get, entry-insert-if-vacant, get_mut-assign, remove), and the sorted
  order realises BTreeMap's ascending iteration order.  HashMap iteration
  order is unspecified in Rust, so the sorted order is one admissible
  choice of that unspecified order.
- Storage keeps the source's match on the HashMap and BTreeMap variants even
  though under this map model both branches perform the same list operation.
- In-place mutation becomes explicit state passing: each mutating operation
  returns the new state next to the Result value; on an error the state it
  returns is the unchanged input state, exactly as the source leaves the map
  untouched on the error paths.
- Indexing containers with an id that has no slot panics in the source
  (Vec indexing out of bounds); modelled as the none case of an Option
  around the operation's outcome.
- DatabaseId and ContainerId are u16 in the source; modelled as Nat (the
  engine only ever produces small ids, and no arithmetic overflows them).
- Locks are mutual-exclusion tokens only (RwLock of unit around UnsafeCell);
  the sequential semantics of every operation is the body run atomically,
  which is what these definitions embed.
-/

namespace TxStorage

/-- Byte-vector keys, as in Vec of u8. -/
abbrev Key := List Nat

/-- Byte-vector values, as in Vec of u8. -/
abbrev Value := List Nat

/-- Status enum from src/txn_storage_trait.rs. -/
inductive Status where
  | DBNotFound
  | ContainerNotFound
  | TxNotFound
  | KeyNotFound
  | DBExists
  | ContainerExists
  | KeyExists
  | TxnConflict
  | SystemAbort
  | Error
deriving DecidableEq

/-- ContainerType enum from src/txn_storage_trait.rs. -/
inductive ContainerType where
  | Hash
  | BTree
deriving DecidableEq

/-- Byte-lexicographic strict order on keys (the Ord instance of Vec of u8:
elementwise comparison, a strict prefix is smaller). -/
def keyLt : Key → Key → Bool
  | [], [] => false
  | [], _ :: _ => true
  | _ :: _, [] => false
  | a :: as, b :: bs => if a < b then true else if b < a then false else keyLt as bs

/-- Lookup in the association-list map model (the first entry with the key). -/
def mapGet : List (Key × Value) → Key → Option Value
  | [], _ => none
  | (k, v) :: rest, key => if k = key then some v else mapGet rest key

/-- Insertion into the sorted association-list map model, keeping ascending
key order; an equal key is overwritten in place (the map ADT's insert). -/
def listInsert (key : Key) (val : Value) : List (Key × Value) → List (Key × Value)
  | [] => [(key, val)]
  | (k, v) :: rest =>
    if keyLt key k then (key, val) :: (k, v) :: rest
    else if key = k then (key, val) :: rest
    else (k, v) :: listInsert key val rest

/-- Replacing the value of the first entry with the key (get_mut + assign). -/
def updateKey (key : Key) (val : Value) : List (Key × Value) → List (Key × Value)
  | [] => []
  | (k, v) :: rest =>
    if k = key then (k, val) :: rest else (k, v) :: updateKey key val rest

/-- Removing the first entry with the key (the map ADT's remove). -/
def removeKey (key : Key) : List (Key × Value) → List (Key × Value)
  | [] => []
  | (k, v) :: rest =>
    if k = key then rest else (k, v) :: removeKey key rest

/-- The Storage enum from src/inmem/mod.rs: a container variant tag plus its
backing map (the RwLock token and UnsafeCell disappear; sequential semantics
of the lock-guarded bodies remain). -/
structure Storage where
  c_type : ContainerType
  entries : List (Key × Value)
deriving DecidableEq

namespace Storage

/-- Storage::new. -/
def new (c_type : ContainerType) : Storage := ⟨c_type, []⟩

/-- Storage::clear: empties the backing map. -/
def clear (s : Storage) : Storage := { s with entries := [] }

/-- Storage::insert: under the write lock, inserts only if the key is vacant,
else KeyExists (HashMap and BTreeMap branches of the source match). -/
def insert (s : Storage) (key : Key) (val : Value) : Except Status Storage :=
  match s.c_type with
  | ContainerType.Hash =>
    match mapGet s.entries key with
    | some _ => Except.error Status.KeyExists
    | none => Except.ok { s with entries := listInsert key val s.entries }
  | ContainerType.BTree =>
    match mapGet s.entries key with
    | some _ => Except.error Status.KeyExists
    | none => Except.ok { s with entries := listInsert key val s.entries }

/-- Storage::get: under the read lock, returns a copy of the stored value or
KeyNotFound. -/
def get (s : Storage) (key : Key) : Except Status Value :=
  match s.c_type with
  | ContainerType.Hash =>
    match mapGet s.entries key with
    | some v => Except.ok v
    | none => Except.error Status.KeyNotFound
  | ContainerType.BTree =>
    match mapGet s.entries key with
    | some v => Except.ok v
    | none => Except.error Status.KeyNotFound

/-- Storage::update: under the write lock, replaces the value only if present,
else KeyNotFound. -/
def update (s : Storage) (key : Key) (val : Value) : Except Status Storage :=
  match s.c_type with
  | ContainerType.Hash =>
    match mapGet s.entries key with
    | some _ => Except.ok { s with entries := updateKey key val s.entries }
    | none => Except.error Status.KeyNotFound
  | ContainerType.BTree =>
    match mapGet s.entries key with
    | some _ => Except.ok { s with entries := updateKey key val s.entries }
    | none => Except.error Status.KeyNotFound

/-- Storage::remove: under the write lock, deletes the entry only if present,
else KeyNotFound. -/
def remove (s : Storage) (key : Key) : Except Status Storage :=
  match s.c_type with
  | ContainerType.Hash =>
    match mapGet s.entries key with
    | some _ => Except.ok { s with entries := removeKey key s.entries }
    | none => Except.error Status.KeyNotFound
  | ContainerType.BTree =>
    match mapGet s.entries key with
    | some _ => Except.ok { s with entries := removeKey key s.entries }
    | none => Except.error Status.KeyNotFound

end Storage

/-- The loop body of insert_values: sequential Storage::insert over the batch,
stopping at the first error; the first component is the storage as mutated so
far (the question-mark operator returns early, leaving prior inserts done). -/
def Storage.insertAll (s : Storage) : List (Key × Value) → Storage × Except Status Unit
  | [] => (s, Except.ok ())
  | (k, v) :: rest =>
    match s.insert k v with
    | Except.error e => (s, Except.error e)
    | Except.ok s2 => Storage.insertAll s2 rest

/-- InMemIterator from src/inmem/mod.rs: the cursor into the container's map
taken at construction; the read-lock guard it also holds has no sequential
content. -/
structure InMemIterator where
  entries : List (Key × Value)
deriving DecidableEq

/-- Storage::iter: takes the read lock and hands the map cursor to the
iterator (both source variants). -/
def Storage.iter (s : Storage) : InMemIterator :=
  match s.c_type with
  | ContainerType.Hash => ⟨s.entries⟩
  | ContainerType.BTree => ⟨s.entries⟩

/-- InMemIterator::next: advances the held cursor, cloning the next pair. -/
def InMemIterator.next (it : InMemIterator) : Option ((Key × Value) × InMemIterator) :=
  match it.entries with
  | [] => none
  | p :: rest => some (p, ⟨rest⟩)

/-- Repeated next() until exhaustion: the full sequence an iterator yields
(drain_next below states the one-step unfolding through next). -/
def InMemIterator.drain : InMemIterator → List (Key × Value)
  | ⟨[]⟩ => []
  | ⟨p :: rest⟩ => p :: InMemIterator.drain ⟨rest⟩

/-- Draining is exactly: call next; stop on none, keep the pair and continue
on some. -/
theorem InMemIterator.drain_next (it : InMemIterator) :
    it.drain =
      match it.next with
      | none => []
      | some (p, it2) => p :: it2.drain := by
  obtain ⟨es⟩ := it
  cases es <;> simp [InMemIterator.drain, InMemIterator.next]

/-- The InMemStorage engine from src/inmem/mod.rs: the database-existence
flag and the growable container slot list (locks carry no state). -/
structure InMemStorage where
  db_created : Bool
  containers : List Storage
deriving DecidableEq

namespace InMemStorage

/-- InMemStorage::new. -/
def new : InMemStorage := ⟨false, []⟩

/-- open_db: DBExists if already created, else set the flag and return id 0.
The second component is the post-state. -/
def open_db (st : InMemStorage) : Except Status Nat × InMemStorage :=
  if st.db_created then (Except.error Status.DBExists, st)
  else (Except.ok 0, { st with db_created := true })

/-- delete_db: DBNotFound when the id is not 0; otherwise resets the flag and
clears the whole container list. -/
def delete_db (st : InMemStorage) (db_id : Nat) : Except Status Unit × InMemStorage :=
  if db_id ≠ 0 then (Except.error Status.DBNotFound, st)
  else (Except.ok (), { st with db_created := false, containers := [] })

/-- create_container: DBNotFound when the id is not 0; otherwise appends a new
Storage under the container-list write lock and returns its index. -/
def create_container (st : InMemStorage) (db_id : Nat) (c_type : ContainerType) :
    Except Status Nat × InMemStorage :=
  if db_id ≠ 0 then (Except.error Status.DBNotFound, st)
  else (Except.ok st.containers.length,
        { st with containers := st.containers ++ [Storage.new c_type] })

/-- delete_container: DBNotFound when the id is not 0; otherwise clears the
slot in place (none models the source's panic on an out-of-range index). -/
def delete_container (st : InMemStorage) (db_id : Nat) (c_id : Nat) :
    Option (Except Status Unit × InMemStorage) :=
  if db_id ≠ 0 then some (Except.error Status.DBNotFound, st)
  else
    match st.containers[c_id]? with
    | none => none
    | some s =>
      some (Except.ok (), { st with containers := st.containers.set c_id s.clear })

/-- list_containers: DBNotFound when the id is not 0; otherwise all allocated
indices 0..len (the source collects the range into a HashSet; a list of the
same elements here). -/
def list_containers (st : InMemStorage) (db_id : Nat) : Except Status (List Nat) :=
  if db_id ≠ 0 then Except.error Status.DBNotFound
  else Except.ok (List.range st.containers.length)

/-- get_value: routes to Storage::get of the addressed slot, read-only. -/
def get_value (st : InMemStorage) (c_id : Nat) (key : Key) :
    Option (Except Status Value) :=
  match st.containers[c_id]? with
  | none => none
  | some s => some (s.get key)

/-- check_value: true exactly when Storage::get succeeds. -/
def check_value (st : InMemStorage) (c_id : Nat) (key : Key) : Option Bool :=
  match st.containers[c_id]? with
  | none => none
  | some s =>
    match s.get key with
    | Except.ok _ => some true
    | Except.error _ => some false

/-- insert_value: routes to Storage::insert of the addressed slot. -/
def insert_value (st : InMemStorage) (c_id : Nat) (key : Key) (val : Value) :
    Option (Except Status Unit × InMemStorage) :=
  match st.containers[c_id]? with
  | none => none
  | some s =>
    match s.insert key val with
    | Except.error e => some (Except.error e, st)
    | Except.ok s2 =>
      some (Except.ok (), { st with containers := st.containers.set c_id s2 })

/-- insert_values: the batch loop applied to the addressed slot. -/
def insert_values (st : InMemStorage) (c_id : Nat) (kvs : List (Key × Value)) :
    Option (Except Status Unit × InMemStorage) :=
  match st.containers[c_id]? with
  | none => none
  | some s =>
    match Storage.insertAll s kvs with
    | (s2, r) => some (r, { st with containers := st.containers.set c_id s2 })

/-- update_value: routes to Storage::update of the addressed slot. -/
def update_value (st : InMemStorage) (c_id : Nat) (key : Key) (val : Value) :
    Option (Except Status Unit × InMemStorage) :=
  match st.containers[c_id]? with
  | none => none
  | some s =>
    match s.update key val with
    | Except.error e => some (Except.error e, st)
    | Except.ok s2 =>
      some (Except.ok (), { st with containers := st.containers.set c_id s2 })

/-- delete_value: routes to Storage::remove of the addressed slot. -/
def delete_value (st : InMemStorage) (c_id : Nat) (key : Key) :
    Option (Except Status Unit × InMemStorage) :=
  match st.containers[c_id]? with
  | none => none
  | some s =>
    match s.remove key with
    | Except.error e => some (Except.error e, st)
    | Except.ok s2 =>
      some (Except.ok (), { st with containers := st.containers.set c_id s2 })

/-- scan_range: Storage::iter of the addressed slot. -/
def scan_range (st : InMemStorage) (c_id : Nat) : Option InMemIterator :=
  match st.containers[c_id]? with
  | none => none
  | some s => some s.iter

end InMemStorage

/-! Basic facts about the association-list map model. -/

theorem mapGet_listInsert_self (k : Key) (v : Value) (l : List (Key × Value)) :
    mapGet (listInsert k v l) k = some v := by
  induction l with
  | nil => simp [listInsert, mapGet]
  | cons p rest ih =>
    obtain ⟨k1, v1⟩ := p
    by_cases hlt : keyLt k k1
    · simp [listInsert, hlt, mapGet]
    · by_cases heq : k = k1
      · subst heq
        simp [listInsert, hlt, mapGet]
      · have hne : k1 ≠ k := fun h => heq h.symm
        simp [listInsert, hlt, heq, mapGet, hne, ih]

theorem mapGet_listInsert_ne (k k2 : Key) (v : Value) (l : List (Key × Value))
    (h : k2 ≠ k) : mapGet (listInsert k v l) k2 = mapGet l k2 := by
  have hkne : k ≠ k2 := fun he => h he.symm
  induction l with
  | nil => simp [listInsert, mapGet, hkne]
  | cons p rest ih =>
    obtain ⟨k1, v1⟩ := p
    by_cases hlt : keyLt k k1
    · simp [listInsert, hlt, mapGet, hkne]
    · by_cases heq : k = k1
      · subst heq
        simp [listInsert, hlt, mapGet, hkne]
      · simp [listInsert, hlt, heq, mapGet, ih]

theorem mapGet_updateKey_self (k : Key) (v : Value) (l : List (Key × Value)) :
    mapGet l k ≠ none → mapGet (updateKey k v l) k = some v := by
  induction l with
  | nil => intro h; simp [mapGet] at h
  | cons p rest ih =>
    obtain ⟨k1, v1⟩ := p
    intro h
    by_cases heq : k1 = k
    · simp [updateKey, heq, mapGet]
    · simp [mapGet, heq] at h
      simp [updateKey, heq, mapGet, ih h]

theorem mapGet_updateKey_ne (k k2 : Key) (v : Value) (l : List (Key × Value))
    (h : k2 ≠ k) : mapGet (updateKey k v l) k2 = mapGet l k2 := by
  induction l with
  | nil => simp [updateKey]
  | cons p rest ih =>
    obtain ⟨k1, v1⟩ := p
    by_cases heq : k1 = k
    · subst heq
      have : k1 ≠ k2 := fun he => h he.symm
      simp [updateKey, mapGet, this]
    · by_cases h2 : k1 = k2
      · simp [updateKey, heq, mapGet, h2, h]
      · simp [updateKey, heq, mapGet, h2, ih]

theorem mapGet_removeKey_ne (k k2 : Key) (l : List (Key × Value))
    (h : k2 ≠ k) : mapGet (removeKey k l) k2 = mapGet l k2 := by
  induction l with
  | nil => simp [removeKey]
  | cons p rest ih =>
    obtain ⟨k1, v1⟩ := p
    by_cases heq : k1 = k
    · subst heq
      have : k1 ≠ k2 := fun he => h he.symm
      simp [removeKey, mapGet, this]
    · by_cases h2 : k1 = k2
      · simp [removeKey, heq, mapGet, h2, h]
      · simp [removeKey, heq, mapGet, h2, ih]

/-! Unfolding lemmas collapsing the Hash and BTree branches of each Storage
operation into the common map operation. -/

theorem Storage.insert_def (s : Storage) (k : Key) (v : Value) :
    s.insert k v =
      match mapGet s.entries k with
      | some _ => Except.error Status.KeyExists
      | none => Except.ok ⟨s.c_type, listInsert k v s.entries⟩ := by
  obtain ⟨t, es⟩ := s
  cases t <;> rfl

theorem Storage.get_def (s : Storage) (k : Key) :
    s.get k =
      match mapGet s.entries k with
      | some v => Except.ok v
      | none => Except.error Status.KeyNotFound := by
  obtain ⟨t, es⟩ := s
  cases t <;> rfl

theorem Storage.update_def (s : Storage) (k : Key) (v : Value) :
    s.update k v =
      match mapGet s.entries k with
      | some _ => Except.ok ⟨s.c_type, updateKey k v s.entries⟩
      | none => Except.error Status.KeyNotFound := by
  obtain ⟨t, es⟩ := s
  cases t <;> rfl

theorem Storage.remove_def (s : Storage) (k : Key) :
    s.remove k =
      match mapGet s.entries k with
      | some _ => Except.ok ⟨s.c_type, removeKey k s.entries⟩
      | none => Except.error Status.KeyNotFound := by
  obtain ⟨t, es⟩ := s
  cases t <;> rfl

theorem Storage.iter_def (s : Storage) : s.iter = ⟨s.entries⟩ := by
  obtain ⟨t, es⟩ := s
  cases t <;> rfl

/-! A syntax of point operations on one container, to speak about arbitrary
operation sequences (claim C1). -/

/-- A point operation issued against one container. -/
inductive Op where
  | insert (k : Key) (v : Value)
  | update (k : Key) (v : Value)
  | remove (k : Key)
  | get (k : Key)
deriving DecidableEq

/-- Running one point operation against a container, keeping the old state on
the error paths (the source mutates nothing there). -/
def applyOp (s : Storage) : Op → Storage
  | Op.insert k v =>
    match s.insert k v with
    | Except.ok s2 => s2
    | Except.error _ => s
  | Op.update k v =>
    match s.update k v with
    | Except.ok s2 => s2
    | Except.error _ => s
  | Op.remove k =>
    match s.remove k with
    | Except.ok s2 => s2
    | Except.error _ => s
  | Op.get _ => s

/-- Running a sequence of point operations left to right. -/
def applyOps (s : Storage) : List Op → Storage
  | [] => s
  | op :: rest => applyOps (applyOp s op) rest

/-- Whether the operation, run in the given state, is a successful update or
remove on the given key. -/
def isSuccUpdRemOn (k : Key) (s : Storage) : Op → Bool
  | Op.update k2 _ => decide (k2 = k) && (mapGet s.entries k2).isSome
  | Op.remove k2 => decide (k2 = k) && (mapGet s.entries k2).isSome
  | _ => false

/-- Whether a sequence, run from the given state, contains no successful
update or remove on the given key. -/
def noSuccUpdRemOn (k : Key) : Storage → List Op → Bool
  | _, [] => true
  | s, op :: rest => !(isSuccUpdRemOn k s op) && noSuccUpdRemOn k (applyOp s op) rest

theorem applyOp_preserves_get (s : Storage) (k : Key) (v : Value) (op : Op)
    (hget : mapGet s.entries k = some v)
    (hop : isSuccUpdRemOn k s op = false) :
    mapGet (applyOp s op).entries k = some v := by
  cases op with
  | insert k2 v2 =>
    rw [applyOp, Storage.insert_def]
    cases h2 : mapGet s.entries k2 with
    | some w => simpa [h2] using hget
    | none =>
      have hne : k ≠ k2 := by
        intro he; rw [he, h2] at hget; exact Option.noConfusion hget
      simpa [h2] using (mapGet_listInsert_ne k2 k v2 s.entries hne).trans hget
  | update k2 v2 =>
    rw [applyOp, Storage.update_def]
    cases h2 : mapGet s.entries k2 with
    | none => simpa [h2] using hget
    | some w =>
      have hne : k2 ≠ k := by
        intro he
        subst he
        simp [isSuccUpdRemOn, h2] at hop
      have hne2 : k ≠ k2 := fun he => hne he.symm
      simpa [h2] using (mapGet_updateKey_ne k2 k v2 s.entries hne2).trans hget
  | remove k2 =>
    rw [applyOp, Storage.remove_def]
    cases h2 : mapGet s.entries k2 with
    | none => simpa [h2] using hget
    | some w =>
      have hne : k2 ≠ k := by
        intro he
        subst he
        simp [isSuccUpdRemOn, h2] at hop
      have hne2 : k ≠ k2 := fun he => hne he.symm
      simpa [h2] using (mapGet_removeKey_ne k2 k s.entries hne2).trans hget
  | get k2 => simpa [applyOp] using hget

theorem applyOps_preserves_get (k : Key) (v : Value) :
    ∀ (ops : List Op) (s : Storage),
      mapGet s.entries k = some v → noSuccUpdRemOn k s ops = true →
      mapGet (applyOps s ops).entries k = some v := by
  intro ops
  induction ops with
  | nil => intro s hget _; simpa [applyOps] using hget
  | cons op rest ih =>
    intro s hget hops
    rw [noSuccUpdRemOn, Bool.and_eq_true, Bool.not_eq_true'] at hops
    exact ih (applyOp s op) (applyOp_preserves_get s k v op hget hops.1) hops.2

/-- Claim C1: if insert(k,v) succeeds on a container then get(k) returns
exactly v, and keeps returning v after any sequence of point operations on
that container containing no successful update or remove on k. -/
theorem claim1_insert_then_get (s s1 : Storage) (k : Key) (v : Value) (ops : List Op)
    (hins : s.insert k v = Except.ok s1)
    (hops : noSuccUpdRemOn k s1 ops = true) :
    s1.get k = Except.ok v ∧ (applyOps s1 ops).get k = Except.ok v := by
  rw [Storage.insert_def] at hins
  cases h0 : mapGet s.entries k with
  | some w => rw [h0] at hins; exact Except.noConfusion hins
  | none =>
    rw [h0] at hins
    have hs1 : s1 = ⟨s.c_type, listInsert k v s.entries⟩ := by
      cases hins; rfl
    have hget1 : mapGet s1.entries k = some v := by
      rw [hs1]; exact mapGet_listInsert_self k v s.entries
    refine ⟨?_, ?_⟩
    · rw [Storage.get_def, hget1]
    · rw [Storage.get_def, applyOps_preserves_get k v ops s1 hget1 hops]

/-- Witness for claim C1 at a concrete container and operation sequence. -/
theorem claim1_insert_then_get_witness :
    (Storage.mk ContainerType.Hash [([0], [1, 2])]).get [0] = Except.ok [1, 2] ∧
    (applyOps (Storage.mk ContainerType.Hash [([0], [1, 2])])
        [Op.insert [3] [4], Op.update [3] [5], Op.remove [3], Op.get [0]]).get [0] =
      Except.ok [1, 2] :=
  claim1_insert_then_get (Storage.new ContainerType.Hash) _ [0] [1, 2] _ rfl (by decide)

/-- Claim C2: insert on an already-present key fails KeyExists and leaves the
whole engine state unchanged, the stored value for the key included. -/
theorem claim2_insert_existing_unchanged (st : InMemStorage) (c : Nat) (s : Storage)
    (k : Key) (v0 v : Value)
    (hc : st.containers[c]? = some s)
    (hk : mapGet s.entries k = some v0) :
    st.insert_value c k v = some (Except.error Status.KeyExists, st) ∧
    st.get_value c k = some (Except.ok v0) := by
  constructor
  · simp [InMemStorage.insert_value, hc, Storage.insert_def, hk]
  · simp [InMemStorage.get_value, hc, Storage.get_def, hk]

/-- Witness for claim C2 at a concrete engine state. -/
theorem claim2_insert_existing_unchanged_witness :
    (InMemStorage.mk true [Storage.mk ContainerType.Hash [([1], [7])]]).insert_value
        0 [1] [9] =
      some (Except.error Status.KeyExists,
        InMemStorage.mk true [Storage.mk ContainerType.Hash [([1], [7])]]) ∧
    (InMemStorage.mk true [Storage.mk ContainerType.Hash [([1], [7])]]).get_value 0 [1] =
      some (Except.ok [7]) :=
  claim2_insert_existing_unchanged _ 0 _ [1] [7] [9] rfl rfl

/-- Claim C3: update and remove on an absent key fail KeyNotFound and leave
the engine state unchanged. -/
theorem claim3_update_remove_absent (st : InMemStorage) (c : Nat) (s : Storage)
    (k : Key) (v : Value)
    (hc : st.containers[c]? = some s)
    (hk : mapGet s.entries k = none) :
    st.update_value c k v = some (Except.error Status.KeyNotFound, st) ∧
    st.delete_value c k = some (Except.error Status.KeyNotFound, st) := by
  constructor
  · simp [InMemStorage.update_value, hc, Storage.update_def, hk]
  · simp [InMemStorage.delete_value, hc, Storage.remove_def, hk]

/-- Witness for claim C3 at a concrete engine state. -/
theorem claim3_update_remove_absent_witness :
    (InMemStorage.mk true [Storage.mk ContainerType.BTree [([1], [7])]]).update_value
        0 [2] [9] =
      some (Except.error Status.KeyNotFound,
        InMemStorage.mk true [Storage.mk ContainerType.BTree [([1], [7])]]) ∧
    (InMemStorage.mk true [Storage.mk ContainerType.BTree [([1], [7])]]).delete_value
        0 [2] =
      some (Except.error Status.KeyNotFound,
        InMemStorage.mk true [Storage.mk ContainerType.BTree [([1], [7])]]) :=
  claim3_update_remove_absent _ 0 _ [2] [9] rfl rfl

/-- Counterexample to claim C4 as stated: with no database open (the flag is
false), delete_db(0) succeeds instead of failing DBNotFound — the source only
tests the id against 0 and never reads the flag. -/
theorem claim4_counterexample :
    (InMemStorage.delete_db (InMemStorage.mk false []) 0).1 ≠
        Except.error Status.DBNotFound ∧
    InMemStorage.delete_db (InMemStorage.mk false []) 0 =
      (Except.ok (), InMemStorage.mk false []) := by
  constructor
  · intro h
    rw [InMemStorage.delete_db] at h
    simp at h
  · rw [InMemStorage.delete_db]
    simp

/-- Claim C4 (amended): delete_db(id) fails with DBNotFound exactly when id is
nonzero, regardless of whether a database is open; delete_db(0) always
succeeds, clears every container and resets the database-open flag. -/
theorem claim4_delete_db (st : InMemStorage) (db_id : Nat) :
    ((st.delete_db db_id).1 = Except.error Status.DBNotFound ↔ db_id ≠ 0) ∧
    (db_id ≠ 0 → (st.delete_db db_id).2 = st) ∧
    st.delete_db 0 = (Except.ok (), InMemStorage.mk false []) := by
  refine ⟨?_, ?_, ?_⟩
  · by_cases h : db_id = 0 <;> simp [InMemStorage.delete_db, h]
  · intro h
    simp [InMemStorage.delete_db, h]
  · rw [InMemStorage.delete_db]
    simp

/-- Witness for claim C4 (amended) at concrete engine states. -/
theorem claim4_delete_db_witness :
    (InMemStorage.delete_db (InMemStorage.mk true [Storage.new ContainerType.Hash]) 5).2 =
      InMemStorage.mk true [Storage.new ContainerType.Hash] ∧
    InMemStorage.delete_db (InMemStorage.mk true [Storage.new ContainerType.Hash]) 0 =
      (Except.ok (), InMemStorage.mk false []) :=
  ⟨(claim4_delete_db _ 5).2.1 (by decide), (claim4_delete_db _ 5).2.2⟩

/-- Claim C5: open_db fails with DBExists when a database is already open and
leaves the state unchanged; otherwise it marks the database open, keeps the
containers, and returns database id 0. -/
theorem claim5_open_db (st : InMemStorage) :
    (st.db_created = true → st.open_db = (Except.error Status.DBExists, st)) ∧
    (st.db_created = false →
      st.open_db = (Except.ok 0, InMemStorage.mk true st.containers)) := by
  constructor
  · intro h
    simp [InMemStorage.open_db, h]
  · intro h
    simp [InMemStorage.open_db, h]

/-- Witness for claim C5 at concrete engine states. -/
theorem claim5_open_db_witness :
    InMemStorage.open_db (InMemStorage.mk true []) =
      (Except.error Status.DBExists, InMemStorage.mk true []) ∧
    InMemStorage.open_db (InMemStorage.mk false []) =
      (Except.ok 0, InMemStorage.mk true []) :=
  ⟨(claim5_open_db _).1 rfl, (claim5_open_db _).2 rfl⟩

/-! The batch-insert loop: behavior on a fully successful run and on the
extension of a successful run. -/

theorem insertAll_append_of_ok (rest : List (Key × Value)) :
    ∀ (pre : List (Key × Value)) (s s2 : Storage),
      Storage.insertAll s pre = (s2, Except.ok ()) →
      Storage.insertAll s (pre ++ rest) = Storage.insertAll s2 rest := by
  intro pre
  induction pre with
  | nil =>
    intro s s2 hp
    rw [Storage.insertAll] at hp
    cases hp
    rfl
  | cons q tail ih =>
    intro s s2 hp
    obtain ⟨k1, v1⟩ := q
    rw [Storage.insertAll] at hp
    rw [List.cons_append, Storage.insertAll]
    cases h1 : s.insert k1 v1 with
    | error e => rw [h1] at hp; exact Except.noConfusion (Prod.mk.injEq .. ▸ hp).2
    | ok s1 => rw [h1] at hp; exact ih s1 s2 hp

theorem insertAll_ok_preserves (l : List (Key × Value)) :
    ∀ (s s2 : Storage) (k : Key) (v : Value),
      Storage.insertAll s l = (s2, Except.ok ()) →
      mapGet s.entries k = some v → mapGet s2.entries k = some v := by
  induction l with
  | nil =>
    intro s s2 k v hp hget
    rw [Storage.insertAll] at hp
    cases hp
    exact hget
  | cons q tail ih =>
    intro s s2 k v hp hget
    obtain ⟨k1, v1⟩ := q
    rw [Storage.insertAll] at hp
    cases h1 : s.insert k1 v1 with
    | error e => rw [h1] at hp; exact Except.noConfusion (Prod.mk.injEq .. ▸ hp).2
    | ok s1 =>
      rw [h1] at hp
      rw [Storage.insert_def] at h1
      cases h0 : mapGet s.entries k1 with
      | some w => rw [h0] at h1; exact Except.noConfusion h1
      | none =>
        rw [h0] at h1
        have hs1 : s1 = ⟨s.c_type, listInsert k1 v1 s.entries⟩ := by cases h1; rfl
        have hne : k ≠ k1 := by
          intro he; rw [he, h0] at hget; exact Option.noConfusion hget
        have hget1 : mapGet s1.entries k = some v := by
          rw [hs1]
          exact (mapGet_listInsert_ne k1 k v1 s.entries hne).trans hget
        exact ih s1 s2 k v hp hget1

theorem insertAll_ok_get (l : List (Key × Value)) :
    ∀ (s s2 : Storage),
      Storage.insertAll s l = (s2, Except.ok ()) →
      ∀ p ∈ l, mapGet s2.entries p.1 = some p.2 := by
  induction l with
  | nil => intro s s2 _ p hp; exact absurd hp (List.not_mem_nil p)
  | cons q tail ih =>
    intro s s2 hp p hmem
    obtain ⟨k1, v1⟩ := q
    rw [Storage.insertAll] at hp
    cases h1 : s.insert k1 v1 with
    | error e => rw [h1] at hp; exact Except.noConfusion (Prod.mk.injEq .. ▸ hp).2
    | ok s1 =>
      rw [h1] at hp
      rcases List.mem_cons.mp hmem with hhead | htail
      · subst hhead
        rw [Storage.insert_def] at h1
        cases h0 : mapGet s.entries k1 with
        | some w => rw [h0] at h1; exact Except.noConfusion h1
        | none =>
          rw [h0] at h1
          have hs1 : s1 = ⟨s.c_type, listInsert k1 v1 s.entries⟩ := by cases h1; rfl
          have hget1 : mapGet s1.entries k1 = some v1 := by
            rw [hs1]; exact mapGet_listInsert_self k1 v1 s.entries
          exact insertAll_ok_preserves tail s1 s2 k1 v1 hp hget1
      · exact ih s1 s2 hp p htail

/-- Claim C6: insert_values processes the batch in list order and stops at the
first pair whose key already exists, returning KeyExists; the pairs before it
stay inserted (no rollback) and the failing pair and everything after it are
not inserted — the resulting container is exactly the one produced by the
successful prefix. -/
theorem claim6_insert_values_first_fail (st : InMemStorage) (c : Nat)
    (s s2 : Storage) (k : Key) (v v0 : Value) (pre post : List (Key × Value))
    (hc : st.containers[c]? = some s)
    (hpre : Storage.insertAll s pre = (s2, Except.ok ()))
    (hk : mapGet s2.entries k = some v0) :
    st.insert_values c (pre ++ (k, v) :: post) =
      some (Except.error Status.KeyExists,
        InMemStorage.mk st.db_created (st.containers.set c s2)) ∧
    (∀ p ∈ pre, s2.get p.1 = Except.ok p.2) ∧
    s2.get k = Except.ok v0 := by
  refine ⟨?_, ?_, ?_⟩
  · have hrun : Storage.insertAll s (pre ++ (k, v) :: post) = (s2, Except.error Status.KeyExists) := by
      rw [insertAll_append_of_ok ((k, v) :: post) pre s s2 hpre, Storage.insertAll,
        Storage.insert_def, hk]
    rw [InMemStorage.insert_values, hc]
    simp [hrun]
  · intro p hp
    rw [Storage.get_def, insertAll_ok_get pre s s2 hpre p hp]
  · rw [Storage.get_def, hk]

/-- Witness for claim C6 at a concrete batch: the second pair repeats the
first key, so the first pair stays inserted and the third is never inserted. -/
theorem claim6_insert_values_first_fail_witness :
    (InMemStorage.mk true [Storage.mk ContainerType.Hash []]).insert_values 0
        [([1], [10]), ([1], [99]), ([2], [20])] =
      some (Except.error Status.KeyExists,
        InMemStorage.mk true [Storage.mk ContainerType.Hash [([1], [10])]]) ∧
    (Storage.mk ContainerType.Hash [([1], [10])]).get [1] = Except.ok [10] :=
  ⟨(claim6_insert_values_first_fail (InMemStorage.mk true [Storage.mk ContainerType.Hash []])
      0 (Storage.mk ContainerType.Hash []) (Storage.mk ContainerType.Hash [([1], [10])])
      [1] [99] [10] [([1], [10])] [([2], [20])] rfl rfl rfl).1,
   (claim6_insert_values_first_fail (InMemStorage.mk true [Storage.mk ContainerType.Hash []])
      0 (Storage.mk ContainerType.Hash []) (Storage.mk ContainerType.Hash [([1], [10])])
      [1] [99] [10] [([1], [10])] [([2], [20])] rfl rfl rfl).2.2⟩

/-- Claim C7: delete_container clears the slot in place; afterwards
list_containers still reports the id, and get on every key in that container
fails KeyNotFound. -/
theorem claim7_delete_container_clears (st : InMemStorage) (c : Nat) (s : Storage)
    (hc : st.containers[c]? = some s) :
    st.delete_container 0 c =
      some (Except.ok (), InMemStorage.mk st.db_created (st.containers.set c s.clear)) ∧
    (InMemStorage.mk st.db_created (st.containers.set c s.clear)).list_containers 0 =
      Except.ok (List.range st.containers.length) ∧
    c ∈ List.range st.containers.length ∧
    ∀ key,
      (InMemStorage.mk st.db_created (st.containers.set c s.clear)).get_value c key =
        some (Except.error Status.KeyNotFound) := by
  have hlt : c < st.containers.length := (List.getElem?_eq_some_iff.mp hc).1
  refine ⟨?_, ?_, List.mem_range.mpr hlt, ?_⟩
  · simp [InMemStorage.delete_container, hc]
  · simp [InMemStorage.list_containers]
  · intro key
    simp [InMemStorage.get_value, List.getElem?_set_self hlt, Storage.clear,
      Storage.get_def, mapGet]

/-- Witness for claim C7 at a concrete engine with one populated container. -/
theorem claim7_delete_container_clears_witness :
    (InMemStorage.mk true [Storage.mk ContainerType.Hash [([3], [4])]]).delete_container
        0 0 =
      some (Except.ok (),
        InMemStorage.mk true [Storage.mk ContainerType.Hash []]) ∧
    (InMemStorage.mk true [Storage.mk ContainerType.Hash []]).get_value 0 [3] =
      some (Except.error Status.KeyNotFound) :=
  ⟨(claim7_delete_container_clears
      (InMemStorage.mk true [Storage.mk ContainerType.Hash [([3], [4])]]) 0
      (Storage.mk ContainerType.Hash [([3], [4])]) rfl).1,
   (claim7_delete_container_clears
      (InMemStorage.mk true [Storage.mk ContainerType.Hash [([3], [4])]]) 0
      (Storage.mk ContainerType.Hash [([3], [4])]) rfl).2.2.2 [3]⟩

/-- Claim C10: insert_value, update_value and delete_value on a valid
container id leave every other container slot and the database-open flag
unchanged, whether they succeed or return an error. -/
theorem claim10_point_ops_frame (st : InMemStorage) (c : Nat) (k : Key) (v : Value)
    (h : c < st.containers.length) :
    (∀ r st2, st.insert_value c k v = some (r, st2) →
        st2.db_created = st.db_created ∧
        ∀ j, j ≠ c → st2.containers[j]? = st.containers[j]?) ∧
    (∀ r st2, st.update_value c k v = some (r, st2) →
        st2.db_created = st.db_created ∧
        ∀ j, j ≠ c → st2.containers[j]? = st.containers[j]?) ∧
    (∀ r st2, st.delete_value c k = some (r, st2) →
        st2.db_created = st.db_created ∧
        ∀ j, j ≠ c → st2.containers[j]? = st.containers[j]?) := by
  have hc : st.containers[c]? = some st.containers[c] := List.getElem?_eq_getElem h
  refine ⟨?_, ?_, ?_⟩
  · intro r st2 heq
    rw [InMemStorage.insert_value] at heq
    cases h1 : (st.containers[c]).insert k v with
    | error e =>
      simp only [hc, h1, Option.some.injEq, Prod.mk.injEq] at heq
      obtain ⟨h_r, h_st⟩ := heq
      subst h_st
      exact ⟨rfl, fun j _ => rfl⟩
    | ok s2 =>
      simp only [hc, h1, Option.some.injEq, Prod.mk.injEq] at heq
      obtain ⟨h_r, h_st⟩ := heq
      subst h_st
      exact ⟨rfl, fun j hj => List.getElem?_set_ne (fun he => hj he.symm)⟩
  · intro r st2 heq
    rw [InMemStorage.update_value] at heq
    cases h1 : (st.containers[c]).update k v with
    | error e =>
      simp only [hc, h1, Option.some.injEq, Prod.mk.injEq] at heq
      obtain ⟨h_r, h_st⟩ := heq
      subst h_st
      exact ⟨rfl, fun j _ => rfl⟩
    | ok s2 =>
      simp only [hc, h1, Option.some.injEq, Prod.mk.injEq] at heq
      obtain ⟨h_r, h_st⟩ := heq
      subst h_st
      exact ⟨rfl, fun j hj => List.getElem?_set_ne (fun he => hj he.symm)⟩
  · intro r st2 heq
    rw [InMemStorage.delete_value] at heq
    cases h1 : (st.containers[c]).remove k with
    | error e =>
      simp only [hc, h1, Option.some.injEq, Prod.mk.injEq] at heq
      obtain ⟨h_r, h_st⟩ := heq
      subst h_st
      exact ⟨rfl, fun j _ => rfl⟩
    | ok s2 =>
      simp only [hc, h1, Option.some.injEq, Prod.mk.injEq] at heq
      obtain ⟨h_r, h_st⟩ := heq
      subst h_st
      exact ⟨rfl, fun j hj => List.getElem?_set_ne (fun he => hj he.symm)⟩

/-- Witness for claim C10: a successful insert into container 0 leaves
container 1 and the open flag as they were. -/
theorem claim10_point_ops_frame_witness :
    (InMemStorage.mk true
        [Storage.mk ContainerType.Hash [([1], [2])],
         Storage.mk ContainerType.Hash [([5], [6])]]).db_created =
      (InMemStorage.mk true
        [Storage.mk ContainerType.Hash [],
         Storage.mk ContainerType.Hash [([5], [6])]]).db_created ∧
    (InMemStorage.mk true
        [Storage.mk ContainerType.Hash [([1], [2])],
         Storage.mk ContainerType.Hash [([5], [6])]]).containers[1]? =
      (InMemStorage.mk true
        [Storage.mk ContainerType.Hash [],
         Storage.mk ContainerType.Hash [([5], [6])]]).containers[1]? :=
  ⟨((claim10_point_ops_frame
      (InMemStorage.mk true
        [Storage.mk ContainerType.Hash [],
         Storage.mk ContainerType.Hash [([5], [6])]]) 0 [1] [2] (by decide)).1
      (Except.ok ())
      (InMemStorage.mk true
        [Storage.mk ContainerType.Hash [([1], [2])],
         Storage.mk ContainerType.Hash [([5], [6])]]) rfl).1,
   ((claim10_point_ops_frame
      (InMemStorage.mk true
        [Storage.mk ContainerType.Hash [],
         Storage.mk ContainerType.Hash [([5], [6])]]) 0 [1] [2] (by decide)).1
      (Except.ok ())
      (InMemStorage.mk true
        [Storage.mk ContainerType.Hash [([1], [2])],
         Storage.mk ContainerType.Hash [([5], [6])]]) rfl).2 1 (by decide)⟩

/-! Facts about the key order, the iterator, and sorted containers. -/

theorem keyLt_irrefl (k : Key) : keyLt k k = false := by
  induction k with
  | nil => rfl
  | cons a as ih => simp [keyLt, ih]

theorem keyLt_ne (a b : Key) (h : keyLt a b = true) : a ≠ b := by
  intro he
  subst he
  rw [keyLt_irrefl] at h
  exact Bool.noConfusion h

theorem drain_mk (l : List (Key × Value)) : InMemIterator.drain ⟨l⟩ = l := by
  induction l with
  | nil => simp [InMemIterator.drain]
  | cons p rest ih => simp [InMemIterator.drain, ih]

theorem mapGet_eq_some_iff_mem :
    ∀ (l : List (Key × Value)), (l.map Prod.fst).Nodup →
      ∀ (k : Key) (v : Value), (mapGet l k = some v ↔ (k, v) ∈ l) := by
  intro l
  induction l with
  | nil => intro _ k v; simp [mapGet]
  | cons p rest ih =>
    intro hnd k v
    obtain ⟨k1, v1⟩ := p
    rw [List.map_cons, List.nodup_cons] at hnd
    by_cases he : k1 = k
    · subst he
      rw [mapGet, if_pos rfl]
      constructor
      · intro hv
        rw [Option.some.injEq] at hv
        subst hv
        exact List.mem_cons_self _ _
      · intro hm
        rcases List.mem_cons.mp hm with h1 | h2
        · rw [Prod.mk.injEq] at h1
          rw [h1.2]
        · exact absurd (List.mem_map_of_mem Prod.fst h2) hnd.1
    · rw [mapGet, if_neg he]
      rw [ih hnd.2 k v]
      constructor
      · intro hm
        exact List.mem_cons_of_mem _ hm
      · intro hm
        rcases List.mem_cons.mp hm with h1 | h2
        · exact absurd (congrArg Prod.fst h1).symm he
        · exact h2

/-- The invariant of the backing map model: entries strictly ascending in
byte-lexicographic key order (which every reachable container satisfies,
the maps being key-unique and the BTree sorted). -/
def Storage.WF (s : Storage) : Prop :=
  List.Pairwise (fun p q => keyLt p.1 q.1 = true) s.entries

/-- Claim C8: draining an iterator yields exactly the pairs present at its
construction — a pair is yielded iff get returns it — with no key repeated;
for a BTree container the keys come out in strictly ascending
byte-lexicographic order. -/
theorem claim8_iteration (s : Storage) (hwf : s.WF) :
    (∀ k v, (k, v) ∈ s.iter.drain ↔ s.get k = Except.ok v) ∧
    (s.iter.drain.map Prod.fst).Nodup ∧
    (s.c_type = ContainerType.BTree →
      List.Chain' (fun a b => keyLt a b = true) (s.iter.drain.map Prod.fst)) := by
  have hdrain : s.iter.drain = s.entries := by rw [Storage.iter_def, drain_mk]
  have hpm : List.Pairwise (fun a b => keyLt a b = true) (s.entries.map Prod.fst) :=
    List.pairwise_map.mpr hwf
  have hnd : (s.entries.map Prod.fst).Nodup := hpm.imp (fun h => keyLt_ne _ _ h)
  refine ⟨?_, ?_, ?_⟩
  · intro k v
    rw [hdrain, Storage.get_def, ← mapGet_eq_some_iff_mem s.entries hnd k v]
    cases h0 : mapGet s.entries k with
    | some w => simp [h0]
    | none => simp [h0]
  · rw [hdrain]
    exact hnd
  · intro _
    rw [hdrain]
    exact List.Pairwise.chain' hpm

/-- Witness for claim C8 at a concrete sorted BTree container. -/
theorem claim8_iteration_witness :
    (([1], [5]) ∈ (Storage.mk ContainerType.BTree [([1], [5]), ([2], [6])]).iter.drain ↔
      (Storage.mk ContainerType.BTree [([1], [5]), ([2], [6])]).get [1] = Except.ok [5]) ∧
    ((Storage.mk ContainerType.BTree [([1], [5]), ([2], [6])]).iter.drain.map
        Prod.fst).Nodup ∧
    List.Chain' (fun a b => keyLt a b = true)
      ((Storage.mk ContainerType.BTree [([1], [5]), ([2], [6])]).iter.drain.map
        Prod.fst) := by
  refine ⟨(claim8_iteration _ ?_).1 [1] [5], (claim8_iteration _ ?_).2.1,
    (claim8_iteration _ ?_).2.2 rfl⟩ <;>
    exact List.Pairwise.cons (by decide) (List.pairwise_singleton _ _)

end TxStorage
